import Mathlib

/-!
Verification of `batch_face/fast_alignment/predictor.py`.

The Python module is shallowly embedded: images are lists of rows of RGB
pixels with rational channel values, bounding boxes carry integer
coordinates (the module converts its working box to an integer tensor),
torch tensors of landmarks are lists of rational pairs, and the neural
network forward pass is an abstract function from a batch of input tensors
to a batch of flat output vectors.  Python floor division `//` is `Int.fdiv`,
Python `int()` truncation toward zero is `Int.tdiv`, and the literal `1.2`
is the rational `6/5`.  External library calls (`cv2.resize`,
`cv2.copyMakeBorder`, torch's `DataLoader`) are modelled by executable
functions that realise their documented contracts; `cv2.resize` is modelled
as index-sampling interpolation (its output is exactly the requested
size and every output pixel is an input pixel), and it fails on an empty
source exactly as the library raises there.
-/

/-- A bounding box `(x1, y1, x2, y2)` in absolute pixel coordinates.
Mirrors the four-component boxes used throughout `predictor.py`; the
box handed to reprojection is an integer tensor (`torch.Tensor(...).int()`),
so coordinates are integers. -/
structure Box where
  x1 : Int
  y1 : Int
  x2 : Int
  y2 : Int
deriving Repr, DecidableEq

/-- The four box coordinates as rationals, as they enter the tensor
arithmetic of `reproject`. -/
def ratBox (b : Box) : ℚ × ℚ × ℚ × ℚ :=
  ((b.x1 : ℚ), (b.y1 : ℚ), (b.x2 : ℚ), (b.y2 : ℚ))

/-- Embedding of `reproject` (predictor.py lines 21-30).  The Python code
clones the landmark tensor and then applies four sequential in-place
column operations to the clone; the value computed by that sequence is
modelled here step by step. -/
def reproject (bbox : ℚ × ℚ × ℚ × ℚ) (landmark : List (ℚ × ℚ)) : List (ℚ × ℚ) :=
  let x1 := bbox.1
  let y1 := bbox.2.1
  let x2 := bbox.2.2.1
  let y2 := bbox.2.2.2
  let w := x2 - x1
  let h := y2 - y1
  let l1 := landmark.map (fun p => (p.1 * w, p.2))
  let l2 := l1.map (fun p => (p.1 + x1, p.2))
  let l3 := l2.map (fun p => (p.1, p.2 * h))
  l3.map (fun p => (p.1, p.2 + y1))

/-- A store of landmark tensors: torch tensors are mutable and aliased, so
the in-place behaviour of `reproject` is modelled with an explicit heap of
tensor values addressed by references. -/
abbrev Store : Type := List (List (ℚ × ℚ))

/-- Read the tensor held at reference `r`. -/
def Store.read (s : Store) (r : Nat) : List (ℚ × ℚ) :=
  List.getD s r []

/-- Allocate a fresh tensor holding value `v`, returning the new store and
the fresh reference. -/
def Store.alloc (s : Store) (v : List (ℚ × ℚ)) : Store × Nat :=
  (List.append s [v], List.length s)

/-- Overwrite the tensor at reference `r` with `v`. -/
def Store.write (s : Store) (r : Nat) (v : List (ℚ × ℚ)) : Store :=
  List.set s r v

/-- Embedding of `reproject` at the level of tensor references
(predictor.py lines 21-30): `landmark_ = landmark.clone()` allocates a
fresh tensor, the four compound assignments mutate that fresh tensor in
place, and the fresh reference is returned. -/
def reprojectStore (bbox : ℚ × ℚ × ℚ × ℚ) (s : Store) (r : Nat) : Store × Nat :=
  let x1 := bbox.1
  let y1 := bbox.2.1
  let x2 := bbox.2.2.1
  let y2 := bbox.2.2.2
  let w := x2 - x1
  let h := y2 - y1
  let a := Store.alloc s (Store.read s r)
  let s1 := a.1
  let r' := a.2
  let s2 := Store.write s1 r' ((Store.read s1 r').map (fun p => (p.1 * w, p.2)))
  let s3 := Store.write s2 r' ((Store.read s2 r').map (fun p => (p.1 + x1, p.2)))
  let s4 := Store.write s3 r' ((Store.read s3 r').map (fun p => (p.1, p.2 * h)))
  let s5 := Store.write s4 r' ((Store.read s4 r').map (fun p => (p.1, p.2 + y1)))
  (s5, r')

/-- A compute target: the general-purpose processor or an accelerator
ordinal.  Models `torch.device`. -/
inductive Device where
  | cpu : Device
  | cuda : Nat → Device
deriving Repr, DecidableEq

/-- Embedding of `get_device` (predictor.py lines 13-17). -/
def get_device (gpu_id : Int) : Device :=
  if gpu_id > -1 then Device.cuda gpu_id.toNat else Device.cpu

/-- The device selected by `LandmarkPredictor.__init__` (predictor.py
lines 143-144); the `gpu_id` parameter defaults to `0`. -/
def landmarkPredictorDevice (gpu_id : Int := 0) : Device :=
  get_device gpu_id

/-- An RGB pixel: three rational channel values. -/
abbrev Pix : Type := ℚ × ℚ × ℚ

/-- The zero pixel used for constant-fill borders. -/
def zeroPix : Pix := (0, 0, 0)

/-- A 3-channel image: a list of rows of pixels (numpy layout
height × width × channel). -/
abbrev Image : Type := List (List Pix)

/-- Number of rows (`img.shape[0]`). -/
def imgHeightN (img : Image) : Nat := img.length

/-- Number of columns (`img.shape[1]`), read off the first row. -/
def imgWidthN (img : Image) : Nat := (img.headD []).length

/-- Python index normalisation for slices: a negative index counts from
the end, and indices are clamped into `[0, n]`. -/
def pyIdx (n : Nat) (i : Int) : Nat :=
  min (if i < 0 then i + n else i).toNat n

/-- Python list slice `l[a:b]` (step 1). -/
def pySlice (l : List α) (a b : Int) : List α :=
  (l.take (pyIdx l.length b)).drop (pyIdx l.length a)

/-- Two-dimensional slice `img[y1:y2, x1:x2]`. -/
def pySlice2 (img : Image) (y1 y2 x1 x2 : Int) : Image :=
  (pySlice img y1 y2).map (fun row => pySlice row x1 x2)

/-- Model of `cv2.copyMakeBorder(src, top, bottom, left, right,
BORDER_CONSTANT, 0)`: zero-fill padding on each side.  The library
rejects an empty source, hence the `Option`. -/
def copyMakeBorder (img : Image) (top bottom left right : Nat) : Option Image :=
  if imgHeightN img = 0 ∨ imgWidthN img = 0 then none
  else
    let rows := img.map (fun r =>
      List.replicate left zeroPix ++ r ++ List.replicate right zeroPix)
    let w := (rows.headD []).length
    some (List.replicate top (List.replicate w zeroPix) ++ rows ++
      List.replicate bottom (List.replicate w zeroPix))

/-- Model of `cv2.resize(src, (out_w, out_h))`.  The external call is
modelled as index-sampling interpolation: the output has exactly the
requested dimensions and every output pixel is sampled from the source
(the value-range and shape facts proved below hold for any interpolation
that averages source pixels).  The library raises on an empty source,
hence the `Option`. -/
def cv2Resize (img : Image) (out_w out_h : Nat) : Option Image :=
  if imgHeightN img = 0 ∨ imgWidthN img = 0 then none
  else
    some ((List.range out_h).map (fun i =>
      (List.range out_w).map (fun j =>
        (img.getD (i * imgHeightN img / out_h) []).getD
          (j * imgWidthN img / out_w) zeroPix)))

/-- A channel-first tensor (3 × H × W), the model input layout. -/
abbrev Tensor : Type := List (List (List ℚ))

/-- The `transpose((2, 0, 1))` rearrangement into channel-first layout. -/
def transposeCHW (img : Image) : Tensor :=
  [img.map (fun r => r.map (fun p => p.1)),
   img.map (fun r => r.map (fun p => p.2.1)),
   img.map (fun r => r.map (fun p => p.2.2))]

/-- Per-channel mean `[0.485, 0.456, 0.406]` (predictor.py line 38). -/
def mnMean : Pix := (485/1000, 456/1000, 406/1000)

/-- Per-channel standard deviation `[0.229, 0.224, 0.225]`
(predictor.py line 39). -/
def mnStd : Pix := (229/1000, 224/1000, 225/1000)

/-- The statistical normalisation `(test_face - mean) / std` applied on
the MobileNet path (predictor.py line 78); numpy broadcasts it over the
channel axis. -/
def mobileNetNormalize (img : Image) : Image :=
  img.map (fun r => r.map (fun p =>
    ((p.1 - mnMean.1) / mnStd.1, (p.2.1 - mnMean.2.1) / mnStd.2.1,
     (p.2.2 - mnMean.2.2) / mnStd.2.2)))

/-- A Feed: the preprocessed tensor plus the clipped bounding box used
for the crop (the `dict(data=..., bbox=...)` of predictor.py line 81). -/
structure Feed where
  data : Tensor
  bbox : Box

/-- The box width (inclusive `+1` convention, predictor.py line 45) used
for the crop computation. -/
def boxW (face : Box) : Int := face.x2 - face.x1 + 1

/-- The box height (inclusive `+1` convention, predictor.py line 46). -/
def boxH (face : Box) : Int := face.y2 - face.y1 + 1

/-- The expanded square side `size = int(min([w, h]) * 1.2)`
(predictor.py line 47); Python `int()` truncates toward zero, and the
float literal `1.2` is modelled as `6/5`. -/
def cropSize (face : Box) : Int := (min (boxW face) (boxH face) * 6).tdiv 5

/-- The horizontal box centre `cx = x1 + w // 2` (predictor.py line 48);
Python `//` is floor division. -/
def boxCenterX (face : Box) : Int := face.x1 + (boxW face).fdiv 2

/-- The vertical box centre `cy = y1 + h // 2` (predictor.py line 49). -/
def boxCenterY (face : Box) : Int := face.y1 + (boxH face).fdiv 2

/-- The expanded square region before clipping (predictor.py lines
50-53): a `size`-sided square placed by integer division around the box
centre. -/
def cropSquare (face : Box) : Box :=
  let size := cropSize face
  let nx1 := boxCenterX face - size.fdiv 2
  let ny1 := boxCenterY face - size.fdiv 2
  ⟨nx1, ny1, nx1 + size, ny1 + size⟩

/-- Clipping of a region to image bounds (predictor.py lines 57-58 and
62-63): origin clamped at zero, far corner clamped at width/height. -/
def clipBox (width height : Int) (b : Box) : Box :=
  ⟨max 0 b.x1, max 0 b.y1, min width b.x2, min height b.y2⟩

/-- Left padding `dx = max(0, -x1)` (predictor.py line 55). -/
def padLeft (b : Box) : Int := max 0 (-b.x1)

/-- Top padding `dy = max(0, -y1)` (predictor.py line 56). -/
def padTop (b : Box) : Int := max 0 (-b.y1)

/-- Right padding `edx = max(0, x2 - width)` (predictor.py line 60). -/
def padRight (width : Int) (b : Box) : Int := max 0 (b.x2 - width)

/-- Bottom padding `edy = max(0, y2 - height)` (predictor.py line 61). -/
def padBottom (height : Int) (b : Box) : Int := max 0 (b.y2 - height)

/-- Embedding of `prepare_feed` (predictor.py lines 33-81), straight-line
as in the source.  A raised exception (the `cv2` calls reject an empty
crop; line 73 raises on a degenerate resized shape) is `none`. -/
def prepare_feed (img : Image) (face : Box) (backbone : String) : Option Feed :=
  let out_size : Nat := if backbone = "MobileNet" then 224 else 112
  let height : Int := imgHeightN img
  let width : Int := imgWidthN img
  let w := face.x2 - face.x1 + 1
  let h := face.y2 - face.y1 + 1
  let size := (min w h * 6).tdiv 5
  let cx := face.x1 + w.fdiv 2
  let cy := face.y1 + h.fdiv 2
  let x1 := cx - size.fdiv 2
  let x2 := x1 + size
  let y1 := cy - size.fdiv 2
  let y2 := y1 + size
  let dx := max 0 (-x1)
  let dy := max 0 (-y1)
  let x1 := max 0 x1
  let y1 := max 0 y1
  let edx := max 0 (x2 - width)
  let edy := max 0 (y2 - height)
  let x2 := min width x2
  let y2 := min height y2
  let new_bbox : Box := ⟨x1, y1, x2, y2⟩
  let cropped := pySlice2 img y1 y2 x1 x2
  let cropped? := if dx > 0 ∨ dy > 0 ∨ edx > 0 ∨ edy > 0 then
      copyMakeBorder cropped dy.toNat edy.toNat dx.toNat edx.toNat
    else some cropped
  match cropped? with
  | none => none
  | some cropped =>
    match cv2Resize cropped out_size out_size with
    | none => none
    | some cropped_face =>
      if imgHeightN cropped_face ≤ 0 ∨ imgWidthN cropped_face ≤ 0 then none
      else
        let test_face := cropped_face.map (fun r =>
          r.map (fun p => (p.1 / 255, p.2.1 / 255, p.2.2 / 255)))
        let test_face := if backbone = "MobileNet" then
            mobileNetNormalize test_face
          else test_face
        some { data := transposeCHW test_face, bbox := new_bbox }

/-- Reshape a flat landmark vector into coordinate pairs
(`landmark.reshape(-1, 2)`, predictor.py line 122). -/
def reshapePairs : List ℚ → List (ℚ × ℚ)
  | x :: y :: rest => (x, y) :: reshapePairs rest
  | _ => []

/-- Consecutive chunks of size `k`: the batches produced by
`DataLoader(feeds, batch_size=k, shuffle=False)`.  (`torch` rejects a
batch size of zero; the zero case below is unreachable from the call
site, which always passes the feed-list length of a non-empty list.) -/
def chunksGo (k : Nat) : Nat → List α → List (List α)
  | _, [] => []
  | 0, l => [l]
  | fuel + 1, a :: l' => ((a :: l').take k) :: chunksGo k fuel ((a :: l').drop k)

/-- Consecutive chunks of size `k` (implemented with a structural fuel
equal to the list length, which suffices because every batch consumes at
least one element). -/
def chunks (k : Nat) (l : List α) : List (List α) := chunksGo k l.length l

/-- One collated batch of the loader loop body (predictor.py lines
119-124): the model is applied to the stacked data of the batch, each
output row is reshaped into pairs and reprojected with the bbox collated
at the same position. -/
def predBatch (model : List Tensor → List (List ℚ)) (batch : List Feed) : List (List (ℚ × ℚ)) :=
  ((model (batch.map Feed.data)).zip (batch.map Feed.bbox)).map
    (fun p => reproject (ratBox p.2) (reshapePairs p.1))

/-- Embedding of `batch_predict2` (predictor.py lines 111-125).  The
`batch_size` argument is accepted and defaulted exactly as in the
source, but the loader is constructed with `batch_size=len(feeds)`
(line 117), so the parameter is never used. -/
def batch_predict2 (model : List Tensor → List (List ℚ)) (feeds : List Feed)
    (batch_size : Option Nat := none) : List (List (ℚ × ℚ)) :=
  let _bs := batch_size.getD feeds.length
  (chunks feeds.length feeds).foldl (fun results batch => results ++ predBatch model batch) []

/-- The feed list built by the single-image multi-box branch of
`LandmarkPredictor.__call__` (predictor.py line 167): `prepare_feed` for
each box in order, with the first raised exception propagating. -/
def prepareFeeds (img : Image) (backbone : String) : List Box → Option (List Feed)
  | [] => some []
  | b :: bs =>
    match prepare_feed img b backbone, prepareFeeds img backbone bs with
    | some f, some fs => some (f :: fs)
    | _, _ => none

/-- The single-image multi-box path of `LandmarkPredictor.__call__`
(predictor.py lines 166-168): prepare one feed per box, then
`_inner_predict` runs `batch_predict2` on the list. -/
def callMulti (model : List Tensor → List (List ℚ)) (img : Image) (boxes : List Box)
    (backbone : String) : Option (List (List (ℚ × ℚ))) :=
  (prepareFeeds img backbone boxes).map (fun feeds => batch_predict2 model feeds none)

/-- The single-image single-box path of `LandmarkPredictor.__call__`
(predictor.py lines 163-165): one feed, `batch_predict2` on the
singleton wrap, and `_inner_predict` unwraps `results[0]`
(predictor.py lines 176-177). -/
def callSingle (model : List Tensor → List (List ℚ)) (img : Image) (box : Box)
    (backbone : String) : Option (List (ℚ × ℚ)) :=
  (prepare_feed img box backbone).bind
    (fun feed => (batch_predict2 model [feed] none).head?)

/-- The running prefix sums accumulated by the loop of `split_feeds`
(predictor.py lines 130-135): each step adds the next count and records
the sum. -/
def runningSums (acc : Nat) : List Nat → List Nat
  | [] => []
  | c :: cs => (acc + c) :: runningSums (acc + c) cs

/-- Embedding of `split_feeds` (predictor.py lines 128-136): slice the
flat list at consecutive prefix-sum boundaries of the per-image box
counts. -/
def split_feeds (all_feeds : List α) (all_faces : List (List β)) : List (List α) :=
  let counts := all_faces.map List.length
  let ends := 0 :: runningSums 0 counts
  (List.range (ends.length - 1)).map (fun i =>
    (all_feeds.take (ends.getD (i + 1) 0)).drop (ends.getD i 0))

/-- The fixed input resolution of each backbone (predictor.py lines
34-37). -/
def outSize (backbone : String) : Nat :=
  if backbone = "MobileNet" then 224 else 112

/-- All three channels of a pixel lie in `[lo, hi]`. -/
abbrev pixInRange (lo hi : ℚ) (p : Pix) : Prop :=
  lo ≤ p.1 ∧ p.1 ≤ hi ∧ lo ≤ p.2.1 ∧ p.2.1 ≤ hi ∧ lo ≤ p.2.2 ∧ p.2.2 ≤ hi

/-- Every pixel of the image has all channels in `[0, 255]`. -/
abbrev imgInByteRange (img : Image) : Prop :=
  ∀ r ∈ img, ∀ p ∈ r, pixInRange 0 255 p

/-- A concrete 4 × 4 test image of constant value 100. -/
def img4 : Image :=
  List.replicate 4 (List.replicate 4 ((100 : ℚ), (100 : ℚ), (100 : ℚ)))

/-- A concrete 6 × 6 test image of constant value 100. -/
def img6 : Image :=
  List.replicate 6 (List.replicate 6 ((100 : ℚ), (100 : ℚ), (100 : ℚ)))

/-- The feed produced by `prepare_feed` on the concrete 6 × 6 image, used
to instantiate theorems at a concrete input. -/
def feed6 : Feed :=
  (prepare_feed img6 ⟨1, 1, 3, 3⟩ "PFLD").get (by rfl)

/-- Recursive characterisation of partitioning a flat list into
consecutive groups of the given lengths; `split_feeds` is proved equal
to it below. -/
def splitRec : List α → List Nat → List (List α)
  | _, [] => []
  | l, c :: cs => l.take c :: splitRec (l.drop c) cs

lemma Store.read_write_ne (s : Store) (i j : Nat) (v : List (ℚ × ℚ)) (h : i ≠ j) :
    Store.read (Store.write s i v) j = Store.read s j := by
  simp [Store.read, Store.write, List.getD_eq_getElem?_getD, List.getElem?_set_ne h]

lemma Store.read_write_self (s : Store) (i : Nat) (v : List (ℚ × ℚ))
    (h : i < List.length s) :
    Store.read (Store.write s i v) i = v := by
  simp [Store.read, Store.write, List.getD_eq_getElem?_getD, List.getElem?_set_self, h]

lemma Store.read_append_lt (s : Store) (v : List (ℚ × ℚ)) (j : Nat)
    (h : j < List.length s) :
    Store.read (List.append s [v]) j = Store.read s j := by
  simp only [List.append_eq]
  simp [Store.read, List.getD_eq_getElem?_getD, List.getElem?_append, h]

lemma Store.read_append_last (s : Store) (v : List (ℚ × ℚ)) :
    Store.read (List.append s [v]) (List.length s) = v := by
  simp only [List.append_eq]
  simp [Store.read, List.getD_eq_getElem?_getD, List.getElem?_concat_length]

lemma Store.length_write (s : Store) (i : Nat) (v : List (ℚ × ℚ)) :
    List.length (Store.write s i v) = List.length s := by
  simp [Store.write]

/-- C1: `reproject` maps each normalized pair `(lx, ly)` to
`(lx * (x2 - x1) + x1, ly * (y2 - y1) + y1)`; in particular `(0, 0)` maps
exactly to `(x1, y1)` and `(1, 1)` maps exactly to `(x2, y2)`. -/
theorem reproject_affine (x1 y1 x2 y2 : ℚ) (lm : List (ℚ × ℚ)) :
    reproject (x1, y1, x2, y2) lm =
      lm.map (fun p => (p.1 * (x2 - x1) + x1, p.2 * (y2 - y1) + y1)) ∧
    reproject (x1, y1, x2, y2) [(0, 0), (1, 1)] = [(x1, y1), (x2, y2)] := by
  constructor
  · simp only [reproject, List.map_map]
    rfl
  · simp only [reproject, List.map_map, List.map_cons, List.map_nil, Function.comp]
    norm_num

/-- C7: the reprojector is pure with respect to its landmark argument:
run on a valid tensor reference, it leaves the caller's tensor unchanged,
returns a reference distinct from the argument, and the fresh tensor
holds exactly the reprojected value. -/
theorem reprojectStore_frame (bbox : ℚ × ℚ × ℚ × ℚ) (s : Store) (r : Nat)
    (h : r < List.length s) :
    Store.read (reprojectStore bbox s r).1 r = Store.read s r ∧
    (reprojectStore bbox s r).2 ≠ r ∧
    Store.read (reprojectStore bbox s r).1 (reprojectStore bbox s r).2 =
      reproject bbox (Store.read s r) := by
  have hne : List.length s ≠ r := by omega
  refine ⟨?_, ?_, ?_⟩
  · simp only [reprojectStore, Store.alloc]
    rw [Store.read_write_ne _ _ _ _ hne, Store.read_write_ne _ _ _ _ hne,
      Store.read_write_ne _ _ _ _ hne, Store.read_write_ne _ _ _ _ hne,
      Store.read_append_lt _ _ _ h]
  · simp only [reprojectStore, Store.alloc]
    exact hne
  · have hlen1 : List.length (List.append s [Store.read s r]) = List.length s + 1 := by
      simp
    have hlt : List.length s < List.length (List.append s [Store.read s r]) := by
      omega
    simp only [reprojectStore, Store.alloc, reproject]
    rw [Store.read_write_self, Store.read_write_self, Store.read_write_self,
      Store.read_write_self, Store.read_append_last]
    · exact hlt
    · simp only [Store.length_write]
      exact hlt
    · simp only [Store.length_write]
      exact hlt
    · simp only [Store.length_write]
      exact hlt

/-- Witness for C7 at a concrete store. -/
theorem reprojectStore_frame_witness :
    Store.read (reprojectStore (1, 2, 5, 6) [[(1/2, 1/2)]] 0).1 0 =
      Store.read ([[(1/2, 1/2)]] : Store) 0 ∧
    (reprojectStore (1, 2, 5, 6) [[(1/2, 1/2)]] 0).2 ≠ 0 ∧
    Store.read (reprojectStore (1, 2, 5, 6) [[(1/2, 1/2)]] 0).1
        (reprojectStore (1, 2, 5, 6) [[(1/2, 1/2)]] 0).2 =
      reproject (1, 2, 5, 6) (Store.read ([[(1/2, 1/2)]] : Store) 0) :=
  reprojectStore_frame (1, 2, 5, 6) [[(1/2, 1/2)]] 0 (by decide)

/-- C9 counterexample: `LandmarkPredictor.__init__` defaults `gpu_id` to
`0`, so constructing a predictor without specifying an accelerator index
selects cuda ordinal 0, not the CPU. -/
theorem landmarkPredictorDevice_default_is_cuda :
    landmarkPredictorDevice = Device.cuda 0 ∧ landmarkPredictorDevice ≠ Device.cpu := by
  constructor
  · rfl
  · decide

/-- C9 amended: `get_device` maps a negative index to the CPU and a
non-negative index `i` to cuda ordinal `i`; constructing a
`LandmarkPredictor` without specifying an index selects cuda ordinal 0
(the `gpu_id` parameter defaults to `0`, not to the CPU). -/
theorem get_device_spec :
    (∀ i : Int, i < 0 → get_device i = Device.cpu) ∧
    (∀ i : Int, 0 ≤ i → get_device i = Device.cuda i.toNat) ∧
    landmarkPredictorDevice = Device.cuda 0 := by
  refine ⟨?_, ?_, rfl⟩
  · intro i h
    have hc : ¬(i > -1) := by omega
    simp [get_device, hc]
  · intro i h
    have hc : i > -1 := by omega
    simp [get_device, hc]

/-- Witness for C9 at concrete indices. -/
theorem get_device_spec_witness :
    get_device (-3) = Device.cpu ∧ get_device 5 = Device.cuda 5 :=
  ⟨get_device_spec.1 (-3) (by decide), get_device_spec.2.1 5 (by decide)⟩

/-- C10: the `batch_size` parameter of `batch_predict2` has no effect on
its result — the internal loader is always constructed with the full
feed-list length as its batch size. -/
theorem batch_predict2_batch_size_irrelevant (model : List Tensor → List (List ℚ))
    (feeds : List Feed) (b1 b2 : Option Nat) :
    batch_predict2 model feeds b1 = batch_predict2 model feeds b2 := rfl

/-- C2: the bbox stored in the feed returned by `prepare_feed` is the
expanded square region clipped to image bounds — `[max(0, x1s),
max(0, y1s), min(W, x2s), min(H, y2s)]` for the expanded square
`(x1s, y1s, x2s, y2s)` — i.e. the clipped, unpadded box, never the
padded extents. -/
theorem prepare_feed_bbox_clipped (img : Image) (face : Box) (backbone : String)
    (fd : Feed) (h : prepare_feed img face backbone = some fd) :
    fd.bbox = clipBox (imgWidthN img) (imgHeightN img) (cropSquare face) := by
  simp only [prepare_feed] at h
  split at h
  · exact absurd h (by simp)
  · split at h
    · exact absurd h (by simp)
    · split at h
      · exact absurd h (by simp)
      · cases h
        rfl

/-- Witness for C2 at a concrete image and box. -/
theorem prepare_feed_bbox_clipped_witness :
    feed6.bbox = clipBox (imgWidthN img6) (imgHeightN img6) (cropSquare ⟨1, 1, 3, 3⟩) :=
  prepare_feed_bbox_clipped img6 ⟨1, 1, 3, 3⟩ "PFLD" feed6 (Option.some_get _).symm

/-- C3: for a box whose expanded size is at least 1, the region computed
before clipping is a `size`-by-`size` square positioned by integer
division around the box centre, and the clipped extent plus the recorded
left/right (resp. top/bottom) paddings equals `size` in each dimension,
so zero-padding restores the crop to exactly `size` by `size`. -/
theorem cropSquare_pad_spec (face : Box) (width height : Int)
    (_h : 1 ≤ cropSize face) :
    (cropSquare face).x2 - (cropSquare face).x1 = cropSize face ∧
    (cropSquare face).y2 - (cropSquare face).y1 = cropSize face ∧
    (cropSquare face).x1 = boxCenterX face - (cropSize face).fdiv 2 ∧
    (cropSquare face).y1 = boxCenterY face - (cropSize face).fdiv 2 ∧
    padLeft (cropSquare face) + padRight width (cropSquare face) +
      ((clipBox width height (cropSquare face)).x2 -
        (clipBox width height (cropSquare face)).x1) = cropSize face ∧
    padTop (cropSquare face) + padBottom height (cropSquare face) +
      ((clipBox width height (cropSquare face)).y2 -
        (clipBox width height (cropSquare face)).y1) = cropSize face := by
  simp only [cropSquare, clipBox, padLeft, padTop, padRight, padBottom]
  refine ⟨by ring, by ring, trivial, trivial, ?_, ?_⟩
  · generalize boxCenterX face - (cropSize face).fdiv 2 = a
    generalize cropSize face = size
    omega
  · generalize boxCenterY face - (cropSize face).fdiv 2 = a
    generalize cropSize face = size
    omega

/-- Witness for C3 at a concrete box and image bounds. -/
theorem cropSquare_pad_spec_witness :
    (cropSquare ⟨0, 0, 2, 2⟩).x2 - (cropSquare ⟨0, 0, 2, 2⟩).x1 = cropSize ⟨0, 0, 2, 2⟩ ∧
    (cropSquare ⟨0, 0, 2, 2⟩).y2 - (cropSquare ⟨0, 0, 2, 2⟩).y1 = cropSize ⟨0, 0, 2, 2⟩ ∧
    (cropSquare ⟨0, 0, 2, 2⟩).x1 = boxCenterX ⟨0, 0, 2, 2⟩ - (cropSize ⟨0, 0, 2, 2⟩).fdiv 2 ∧
    (cropSquare ⟨0, 0, 2, 2⟩).y1 = boxCenterY ⟨0, 0, 2, 2⟩ - (cropSize ⟨0, 0, 2, 2⟩).fdiv 2 ∧
    padLeft (cropSquare ⟨0, 0, 2, 2⟩) + padRight 4 (cropSquare ⟨0, 0, 2, 2⟩) +
      ((clipBox 4 4 (cropSquare ⟨0, 0, 2, 2⟩)).x2 -
        (clipBox 4 4 (cropSquare ⟨0, 0, 2, 2⟩)).x1) = cropSize ⟨0, 0, 2, 2⟩ ∧
    padTop (cropSquare ⟨0, 0, 2, 2⟩) + padBottom 4 (cropSquare ⟨0, 0, 2, 2⟩) +
      ((clipBox 4 4 (cropSquare ⟨0, 0, 2, 2⟩)).y2 -
        (clipBox 4 4 (cropSquare ⟨0, 0, 2, 2⟩)).y1) = cropSize ⟨0, 0, 2, 2⟩ :=
  cropSquare_pad_spec ⟨0, 0, 2, 2⟩ 4 4 (by decide)

lemma runningSums_shift (a : Nat) (cs : List Nat) :
    ∀ b : Nat, runningSums (a + b) cs = (runningSums b cs).map (a + ·) := by
  induction cs with
  | nil => intro b; simp [runningSums]
  | cons c cs ih =>
    intro b
    simp only [runningSums, List.map_cons]
    rw [Nat.add_assoc, ih (b + c)]

lemma runningSums_length (cs : List Nat) : ∀ a : Nat, (runningSums a cs).length = cs.length := by
  induction cs with
  | nil => intro a; simp [runningSums]
  | cons c cs ih => intro a; simp [runningSums, ih]

lemma getD_map_add (c : Nat) (l : List Nat) (i : Nat) (h : i < l.length) :
    (l.map (c + ·)).getD i 0 = c + l.getD i 0 := by
  simp [List.getD_eq_getElem?_getD, List.getElem?_eq_getElem, h]

lemma ends_getD_succ (c : Nat) (cs : List Nat) (i : Nat) (h : i ≤ cs.length) :
    (0 :: runningSums 0 (c :: cs)).getD (i + 1) 0 =
      c + (0 :: runningSums 0 cs).getD i 0 := by
  have hs : runningSums c cs = (runningSums 0 cs).map (c + ·) := by
    have := runningSums_shift c cs 0
    simpa using this
  cases i with
  | zero => simp [runningSums]
  | succ j =>
    simp only [runningSums, List.getD_cons_succ, Nat.zero_add]
    rw [hs]
    have hj : j < (runningSums 0 cs).length := by
      rw [runningSums_length]; omega
    exact getD_map_add c _ j hj

lemma slice_shift (l : List α) (c e1 e2 : Nat) :
    (l.take (c + e2)).drop (c + e1) = ((l.drop c).take e2).drop e1 := by
  calc (l.take (c + e2)).drop (c + e1)
      = ((l.take (c + e2)).drop c).drop e1 := by
        rw [List.drop_drop]
    _ = ((l.drop c).take e2).drop e1 := by
        rw [List.take_drop]

lemma split_feeds_eq_splitRec (all_feeds : List α) (all_faces : List (List β)) :
    split_feeds all_feeds all_faces = splitRec all_feeds (all_faces.map List.length) := by
  suffices h : ∀ (counts : List Nat) (l : List α),
      (List.range ((0 :: runningSums 0 counts).length - 1)).map (fun i =>
        (l.take ((0 :: runningSums 0 counts).getD (i + 1) 0)).drop
          ((0 :: runningSums 0 counts).getD i 0)) = splitRec l counts by
    exact h (all_faces.map List.length) all_feeds
  intro counts
  induction counts with
  | nil => intro l; simp [runningSums, splitRec]
  | cons c cs ih =>
    intro l
    have hlen : (0 :: runningSums 0 (c :: cs)).length - 1 = cs.length + 1 := by
      simp [runningSums, runningSums_length]
    rw [hlen, List.range_succ_eq_map, List.map_cons, List.map_map]
    have h0 : (l.take ((0 :: runningSums 0 (c :: cs)).getD (0 + 1) 0)).drop
        ((0 :: runningSums 0 (c :: cs)).getD 0 0) = l.take c := by
      simp [runningSums]
    have hrest : (List.range cs.length).map
        ((fun i => (l.take ((0 :: runningSums 0 (c :: cs)).getD (i + 1) 0)).drop
          ((0 :: runningSums 0 (c :: cs)).getD i 0)) ∘ Nat.succ) =
        splitRec (l.drop c) cs := by
      rw [← ih (l.drop c)]
      have hlen2 : (0 :: runningSums 0 cs).length - 1 = cs.length := by
        simp [runningSums_length]
      rw [hlen2]
      apply List.map_congr_left
      intro i hi
      have hi' : i < cs.length := List.mem_range.mp hi
      simp only [Function.comp]
      rw [ends_getD_succ c cs (i + 1) (by omega), ends_getD_succ c cs i (by omega)]
      exact slice_shift l c _ _
    rw [h0, hrest]
    rfl

lemma splitRec_map_length (counts : List Nat) :
    ∀ l : List α, l.length = counts.sum → (splitRec l counts).map List.length = counts := by
  induction counts with
  | nil => intro l _; simp [splitRec]
  | cons c cs ih =>
    intro l h
    simp only [List.sum_cons] at h
    simp only [splitRec, List.map_cons]
    rw [List.length_take, min_eq_left (by omega : c ≤ l.length),
      ih (l.drop c) (by simp [List.length_drop]; omega)]

lemma splitRec_flatten (counts : List Nat) :
    ∀ l : List α, l.length = counts.sum → (splitRec l counts).flatten = l := by
  induction counts with
  | nil =>
    intro l h
    simp only [List.sum_nil] at h
    simp [splitRec, List.eq_nil_of_length_eq_zero h]
  | cons c cs ih =>
    intro l h
    simp only [List.sum_cons] at h
    simp only [splitRec, List.flatten_cons]
    rw [ih (l.drop c) (by simp [List.length_drop]; omega), List.take_append_drop]

/-- C4: for per-image box lists and a flat results list whose length is
the sum of the per-image box counts, `split_feeds` returns one group per
image whose lengths are exactly the per-image counts, in order, and
whose concatenation is the input flat list. -/
theorem split_feeds_spec (all_feeds : List α) (all_faces : List (List β))
    (h : all_feeds.length = (all_faces.map List.length).sum) :
    (split_feeds all_feeds all_faces).map List.length = all_faces.map List.length ∧
    (split_feeds all_feeds all_faces).flatten = all_feeds := by
  rw [split_feeds_eq_splitRec]
  exact ⟨splitRec_map_length _ _ h, splitRec_flatten _ _ h⟩

/-- Witness for C4: counts `[2, 0, 3]` on a flat 5-element list. -/
theorem split_feeds_spec_witness :
    (split_feeds [1, 2, 3, 4, 5] [[0, 1], ([] : List Nat), [0, 1, 2]]).map List.length =
      [[0, 1], ([] : List Nat), [0, 1, 2]].map List.length ∧
    (split_feeds [1, 2, 3, 4, 5] [[0, 1], ([] : List Nat), [0, 1, 2]]).flatten =
      [1, 2, 3, 4, 5] :=
  split_feeds_spec [1, 2, 3, 4, 5] [[0, 1], ([] : List Nat), [0, 1, 2]] (by decide)

lemma chunks_nil (k : Nat) : chunks k ([] : List α) = [] := by
  simp [chunks, chunksGo]

lemma chunks_full (l : List α) (h : l ≠ []) : chunks l.length l = [l] := by
  cases l with
  | nil => exact absurd rfl h
  | cons a l' =>
    simp only [chunks, List.length_cons, chunksGo]
    rw [List.take_of_length_le (by simp), List.drop_eq_nil_of_le (by simp)]
    simp [chunksGo]

lemma predBatch_map (f : Tensor → List ℚ) (m : List Tensor → List (List ℚ))
    (hM : ∀ ds, m ds = ds.map f) (batch : List Feed) :
    predBatch m batch =
      batch.map (fun fd => reproject (ratBox fd.bbox) (reshapePairs (f fd.data))) := by
  simp only [predBatch, hM, List.map_map, List.zip_map', List.map_map]
  rfl

lemma batch_predict2_map (f : Tensor → List ℚ) (m : List Tensor → List (List ℚ))
    (hM : ∀ ds, m ds = ds.map f) (feeds : List Feed) (bs : Option Nat) :
    batch_predict2 m feeds bs =
      feeds.map (fun fd => reproject (ratBox fd.bbox) (reshapePairs (f fd.data))) := by
  by_cases h : feeds = []
  · subst h
    simp [batch_predict2, chunks_nil]
  · simp only [batch_predict2]
    rw [chunks_full feeds h]
    simp [predBatch_map f m hM]

lemma prepareFeeds_getElem? (img : Image) (backbone : String) :
    ∀ (boxes : List Box) (feeds : List Feed),
      prepareFeeds img backbone boxes = some feeds →
      ∀ i : Nat, feeds[i]? = (boxes[i]?).bind (fun b => prepare_feed img b backbone) := by
  intro boxes
  induction boxes with
  | nil =>
    intro feeds h i
    simp only [prepareFeeds, Option.some.injEq] at h
    subst h
    simp
  | cons b bs ih =>
    intro feeds h i
    simp only [prepareFeeds] at h
    cases hb : prepare_feed img b backbone with
    | none => rw [hb] at h; exact absurd h (by simp)
    | some fdb =>
      cases hbs : prepareFeeds img backbone bs with
      | none => rw [hb, hbs] at h; exact absurd h (by simp)
      | some fds =>
        rw [hb, hbs] at h
        simp only [Option.some.injEq] at h
        subst h
        cases i with
        | zero => simp [hb]
        | succ j => simpa using ih fds hbs j

/-- C5: assuming the model is a deterministic function applied
independently to each element of its batch, the single-image multi-box
path returns at position `i` exactly what the single-image single-box
path returns for the `i`-th box alone. -/
theorem call_multi_single_equiv (m : List Tensor → List (List ℚ)) (f : Tensor → List ℚ)
    (img : Image) (backbone : String) (boxes : List Box) (res : List (List (ℚ × ℚ)))
    (hM : ∀ ds, m ds = ds.map f)
    (hres : callMulti m img boxes backbone = some res)
    (i : Nat) (hi : i < boxes.length) :
    res[i]? = callSingle m img boxes[i] backbone := by
  simp only [callMulti] at hres
  cases hfs : prepareFeeds img backbone boxes with
  | none => rw [hfs] at hres; exact absurd hres (by simp)
  | some feeds =>
    rw [hfs] at hres
    simp only [Option.map_some', Option.some.injEq] at hres
    subst hres
    rw [batch_predict2_map f m hM, List.getElem?_map,
      prepareFeeds_getElem? img backbone boxes feeds hfs i,
      List.getElem?_eq_getElem hi, Option.some_bind]
    simp only [callSingle]
    cases hpf : prepare_feed img boxes[i] backbone with
    | none => simp
    | some fd =>
      simp only [Option.map_some', Option.some_bind]
      rw [batch_predict2_map f m hM]
      simp

/-- Witness for C5 with a concrete constant model, image and box list. -/
theorem call_multi_single_equiv_witness :
    ([[((1 : ℚ), (1 : ℚ))]] : List (List (ℚ × ℚ)))[0]? =
      callSingle (fun ds => ds.map (fun _ => [0, 0])) img6 ⟨1, 1, 3, 3⟩ "PFLD" :=
  call_multi_single_equiv (fun ds => ds.map (fun _ => [0, 0])) (fun _ => [0, 0])
    img6 "PFLD" [⟨1, 1, 3, 3⟩] [[(1, 1)]] (fun _ => rfl)
    (by
      have hpf : prepare_feed img6 ⟨1, 1, 3, 3⟩ "PFLD" = some feed6 :=
        (Option.some_get _).symm
      have hbb : feed6.bbox = ⟨1, 1, 4, 4⟩ := rfl
      simp only [callMulti, prepareFeeds, hpf, Option.map_some']
      rw [batch_predict2_map (fun _ => ([0, 0] : List ℚ)) _ (fun _ => rfl)]
      simp [hbb, ratBox, reshapePairs, reproject])
    0 (by decide)

lemma tdiv_nonpos_of_nonpos (a b : Int) (ha : a ≤ 0) (hb : 0 ≤ b) : a.tdiv b ≤ 0 := by
  have h1 : 0 ≤ (-a).tdiv b := Int.tdiv_nonneg (by omega) hb
  rw [Int.neg_tdiv] at h1
  omega

lemma prepare_feed_structure (img : Image) (face : Box) (backbone : String) :
    prepare_feed img face backbone =
      (let c := clipBox (imgWidthN img) (imgHeightN img) (cropSquare face)
       let s := cropSquare face
       let cropped := pySlice2 img c.y1 c.y2 c.x1 c.x2
       let cropped? :=
         if padLeft s > 0 ∨ padTop s > 0 ∨ padRight (imgWidthN img) s > 0 ∨
             padBottom (imgHeightN img) s > 0 then
           copyMakeBorder cropped (padTop s).toNat (padBottom (imgHeightN img) s).toNat
             (padLeft s).toNat (padRight (imgWidthN img) s).toNat
         else some cropped
       match cropped? with
       | none => none
       | some cropped2 =>
         match cv2Resize cropped2 (outSize backbone) (outSize backbone) with
         | none => none
         | some cropped_face =>
           if imgHeightN cropped_face ≤ 0 ∨ imgWidthN cropped_face ≤ 0 then none
           else
             let test_face := cropped_face.map (fun r =>
               r.map (fun p => (p.1 / 255, p.2.1 / 255, p.2.2 / 255)))
             let test_face2 := if backbone = "MobileNet" then
                 mobileNetNormalize test_face else test_face
             some { data := transposeCHW test_face2, bbox := c }) := rfl

lemma pySlice_nil (l : List α) (a b : Int) (ha : 0 ≤ a) (hb : 0 ≤ b) (hba : b ≤ a) :
    pySlice l a b = [] := by
  unfold pySlice pyIdx
  rw [if_neg (by omega), if_neg (by omega)]
  apply List.drop_eq_nil_of_le
  simp only [List.length_take]
  omega

lemma cropSize_nonpos (face : Box) (hdeg : face.x2 < face.x1 ∨ face.y2 < face.y1) :
    cropSize face ≤ 0 := by
  unfold cropSize boxW boxH
  apply tdiv_nonpos_of_nonpos _ _ _ (by omega)
  have hm : min (face.x2 - face.x1 + 1) (face.y2 - face.y1 + 1) ≤ 0 := by omega
  omega

/-- C6 amended: a strictly degenerate box (`x2 < x1` or `y2 < y1`) whose
expanded square region stays within the image bounds yields an empty
crop, and `prepare_feed` raises (the resize rejects an empty source)
rather than returning a tensor. -/
theorem prepare_feed_degenerate_none (img : Image) (face : Box) (backbone : String)
    (hdeg : face.x2 < face.x1 ∨ face.y2 < face.y1)
    (h1 : 0 ≤ (cropSquare face).x1) (h2 : 0 ≤ (cropSquare face).y1)
    (h3 : 0 ≤ (cropSquare face).y2)
    (h4 : (cropSquare face).x2 ≤ (imgWidthN img : Int))
    (h5 : (cropSquare face).y2 ≤ (imgHeightN img : Int)) :
    prepare_feed img face backbone = none := by
  have hsize : cropSize face ≤ 0 := cropSize_nonpos face hdeg
  have hy21 : (cropSquare face).y2 = (cropSquare face).y1 + cropSize face := rfl
  have hflags : ¬(padLeft (cropSquare face) > 0 ∨ padTop (cropSquare face) > 0 ∨
      padRight (imgWidthN img) (cropSquare face) > 0 ∨
      padBottom (imgHeightN img) (cropSquare face) > 0) := by
    simp only [padLeft, padTop, padRight, padBottom]
    omega
  have hcrop : pySlice img (clipBox (imgWidthN img) (imgHeightN img) (cropSquare face)).y1
      (clipBox (imgWidthN img) (imgHeightN img) (cropSquare face)).y2 = [] := by
    apply pySlice_nil
    · simp only [clipBox]
      omega
    · simp only [clipBox]
      omega
    · simp only [clipBox]
      omega
  have hcrop2 : pySlice2 img (clipBox (imgWidthN img) (imgHeightN img) (cropSquare face)).y1
      (clipBox (imgWidthN img) (imgHeightN img) (cropSquare face)).y2
      (clipBox (imgWidthN img) (imgHeightN img) (cropSquare face)).x1
      (clipBox (imgWidthN img) (imgHeightN img) (cropSquare face)).x2 = [] := by
    simp [pySlice2, hcrop]
  rw [prepare_feed_structure]
  simp only [if_neg hflags, hcrop2]
  simp [cv2Resize, imgHeightN]

/-- C6 counterexample: the claim requires an error for every box with
`x2 ≤ x1`, but a box with `x2 = x1` is a valid one-pixel-extent box
under the module's inclusive `+1` width convention, and `prepare_feed`
returns a tensor for it without raising. -/
theorem prepare_feed_one_pixel_box_succeeds :
    (Box.mk 2 2 2 2).x2 ≤ (Box.mk 2 2 2 2).x1 ∧
    (prepare_feed img4 ⟨2, 2, 2, 2⟩ "PFLD").isSome = true :=
  ⟨by decide, by rfl⟩

/-- Witness for the amended C6 at a concrete image and box. -/
theorem prepare_feed_degenerate_none_witness :
    (Box.mk 3 3 1 1).x2 < (Box.mk 3 3 1 1).x1 ∧
    prepare_feed img4 ⟨3, 3, 1, 1⟩ "PFLD" = none :=
  ⟨by decide, prepare_feed_degenerate_none img4 ⟨3, 3, 1, 1⟩ "PFLD" (by decide)
    (by decide) (by decide) (by decide) (by decide) (by decide)⟩

lemma getD_eq_or_mem (l : List α) (n : Nat) (d : α) : l.getD n d = d ∨ l.getD n d ∈ l := by
  by_cases h : n < l.length
  · right
    rw [List.getD_eq_getElem l d h]
    exact List.getElem_mem h
  · left
    rw [List.getD_eq_default l d (by omega)]

lemma mem_of_mem_pySlice {x : α} {l : List α} {a b : Int} (h : x ∈ pySlice l a b) :
    x ∈ l := by
  unfold pySlice at h
  exact List.mem_of_mem_take (List.mem_of_mem_drop h)

lemma pySlice_length (l : List α) (a b : Int) (ha : 0 ≤ a) (hab : a ≤ b)
    (hb : b ≤ (l.length : Int)) : (pySlice l a b).length = (b - a).toNat := by
  unfold pySlice pyIdx
  rw [if_neg (by omega), if_neg (by omega)]
  simp only [List.length_drop, List.length_take]
  omega

lemma pySlice2_byteRange (img : Image) (a b c d : Int) (h : imgInByteRange img) :
    imgInByteRange (pySlice2 img a b c d) := by
  intro r hr p hp
  simp only [pySlice2, List.mem_map] at hr
  obtain ⟨row, hrow, rfl⟩ := hr
  exact h row (mem_of_mem_pySlice hrow) p (mem_of_mem_pySlice hp)

lemma resize_shape (M : Image) (out_w out_h : Nat) (R : Image)
    (hR : cv2Resize M out_w out_h = some R) :
    R.length = out_h ∧ ∀ r ∈ R, r.length = out_w := by
  unfold cv2Resize at hR
  by_cases hc : imgHeightN M = 0 ∨ imgWidthN M = 0
  · rw [if_pos hc] at hR
    exact absurd hR (by simp)
  · rw [if_neg hc] at hR
    simp only [Option.some.injEq] at hR
    subst hR
    constructor
    · simp
    · intro r hr
      simp only [List.mem_map] at hr
      obtain ⟨i, _, rfl⟩ := hr
      simp

lemma resize_byteRange (M : Image) (out_w out_h : Nat) (R : Image)
    (hR : cv2Resize M out_w out_h = some R) (hM : imgInByteRange M) :
    imgInByteRange R := by
  unfold cv2Resize at hR
  by_cases hc : imgHeightN M = 0 ∨ imgWidthN M = 0
  · rw [if_pos hc] at hR
    exact absurd hR (by simp)
  · rw [if_neg hc] at hR
    simp only [Option.some.injEq] at hR
    subst hR
    intro r hr p hp
    simp only [List.mem_map] at hr
    obtain ⟨i, _, rfl⟩ := hr
    simp only [List.mem_map] at hp
    obtain ⟨j, _, rfl⟩ := hp
    rcases getD_eq_or_mem (M.getD (i * imgHeightN M / out_h) []) (j * imgWidthN M / out_w)
        zeroPix with hz | hmem
    · rw [hz]
      unfold zeroPix pixInRange
      norm_num
    · rcases getD_eq_or_mem M (i * imgHeightN M / out_h) [] with hz2 | hmem2
      · rw [hz2] at hmem
        exact absurd hmem (by simp)
      · exact hM _ hmem2 _ hmem

lemma mapmap_shape {α β : Type} (M : List (List α)) (g : α → β) (h w : Nat)
    (hM : M.length = h ∧ ∀ r ∈ M, r.length = w) :
    (M.map (fun r => r.map g)).length = h ∧
      ∀ r ∈ M.map (fun r => r.map g), r.length = w := by
  constructor
  · simp [hM.1]
  · intro r hr
    simp only [List.mem_map] at hr
    obtain ⟨row, hrow, rfl⟩ := hr
    simp [hM.2 row hrow]

lemma div255_range (x : ℚ) (h0 : 0 ≤ x) (h255 : x ≤ 255) : 0 ≤ x / 255 ∧ x / 255 ≤ 1 := by
  constructor
  · positivity
  · rw [div_le_one (by norm_num)]
    linarith

lemma byteRange_to_unit (R : Image) (hR : imgInByteRange R) :
    ∀ r ∈ R.map (fun r => r.map (fun p : Pix => (p.1 / 255, p.2.1 / 255, p.2.2 / 255))),
      ∀ p ∈ r, pixInRange 0 1 p := by
  intro r hr p hp
  simp only [List.mem_map] at hr
  obtain ⟨row, hrow, rfl⟩ := hr
  simp only [List.mem_map] at hp
  obtain ⟨q, hq, rfl⟩ := hp
  obtain ⟨a1, a2, a3, a4, a5, a6⟩ := hR row hrow q hq
  obtain ⟨b1, b2⟩ := div255_range q.1 a1 a2
  obtain ⟨b3, b4⟩ := div255_range q.2.1 a3 a4
  obtain ⟨b5, b6⟩ := div255_range q.2.2 a5 a6
  exact ⟨b1, b2, b3, b4, b5, b6⟩

lemma outSize_pos (backbone : String) : 0 < outSize backbone := by
  unfold outSize
  split <;> norm_num

lemma cropSquare_center (face : Box) (hw : face.x1 ≤ face.x2) (hh : face.y1 ≤ face.y2) :
    1 ≤ cropSize face ∧
    (cropSquare face).x1 ≤ boxCenterX face ∧ boxCenterX face < (cropSquare face).x2 ∧
    face.x1 ≤ boxCenterX face ∧ boxCenterX face ≤ face.x2 ∧
    (cropSquare face).y1 ≤ boxCenterY face ∧ boxCenterY face < (cropSquare face).y2 ∧
    face.y1 ≤ boxCenterY face ∧ boxCenterY face ≤ face.y2 := by
  have h2 : ∀ a : Int, a.fdiv 2 = a / 2 := fun a => Int.fdiv_eq_ediv a (by norm_num)
  simp only [cropSquare, boxCenterX, boxCenterY, boxW, boxH, cropSize, h2]
  rw [Int.tdiv_eq_ediv
    (show (0 : Int) ≤ min (face.x2 - face.x1 + 1) (face.y2 - face.y1 + 1) * 6 by omega)
    (show (0 : Int) ≤ 5 by norm_num)]
  omega

lemma crop_dims (img : Image) (a b x y : Int)
    (hrect : ∀ row ∈ img, row.length = imgWidthN img)
    (ha : 0 ≤ a) (hab : a < b) (hb : b ≤ (imgHeightN img : Int))
    (hx : 0 ≤ x) (hxy : x < y) (hy : y ≤ (imgWidthN img : Int)) :
    imgHeightN (pySlice2 img a b x y) ≠ 0 ∧ imgWidthN (pySlice2 img a b x y) ≠ 0 := by
  have hlen : (pySlice img a b).length = (b - a).toNat :=
    pySlice_length img a b ha (by omega) hb
  have hlen2 : (pySlice2 img a b x y).length = (b - a).toNat := by
    unfold pySlice2
    simp [hlen]
  constructor
  · unfold imgHeightN
    rw [hlen2]
    omega
  · unfold imgWidthN
    cases hcc : pySlice2 img a b x y with
    | nil =>
      rw [hcc] at hlen2
      simp at hlen2
      omega
    | cons r0 rest =>
      simp only [List.headD_cons]
      have hr0 : r0 ∈ pySlice2 img a b x y := by
        rw [hcc]
        exact List.mem_cons_self r0 rest
      unfold pySlice2 at hr0
      simp only [List.mem_map] at hr0
      obtain ⟨row, hrow, rfl⟩ := hr0
      rw [pySlice_length row x y hx (by omega)
        (by rw [hrect row (mem_of_mem_pySlice hrow)]; exact hy)]
      omega

lemma copyMakeBorder_spec (M : Image) (t b l r : Nat)
    (hH : imgHeightN M ≠ 0) (hW : imgWidthN M ≠ 0) (hM : imgInByteRange M) :
    ∃ P, copyMakeBorder M t b l r = some P ∧
      imgHeightN P ≠ 0 ∧ imgWidthN P ≠ 0 ∧ imgInByteRange P := by
  cases M with
  | nil => exact absurd rfl hH
  | cons m0 M' =>
    unfold copyMakeBorder
    rw [if_neg (not_or.mpr ⟨hH, hW⟩)]
    refine ⟨_, rfl, ?_, ?_, ?_⟩
    · unfold imgHeightN
      simp [List.length_append]
    · unfold imgWidthN at hW ⊢
      simp only [List.headD_cons] at hW
      cases t with
      | zero =>
        simp only [List.replicate_zero, List.nil_append, List.cons_append, List.map_cons,
          List.headD_cons, List.length_append, List.length_replicate]
        omega
      | succ u =>
        simp only [List.replicate_succ, List.nil_append, List.cons_append, List.map_cons,
          List.headD_cons, List.length_append, List.length_replicate]
        omega
    · intro row hrow p hp
      simp only [List.mem_append, List.mem_replicate] at hrow
      rcases hrow with (⟨-, rfl⟩ | hrow) | ⟨-, rfl⟩
      · rw [List.eq_of_mem_replicate hp]
        unfold zeroPix pixInRange
        norm_num
      · simp only [List.mem_map] at hrow
        obtain ⟨orig, horig, rfl⟩ := hrow
        simp only [List.mem_append, List.mem_replicate] at hp
        rcases hp with (⟨-, rfl⟩ | hp) | ⟨-, rfl⟩
        · unfold zeroPix pixInRange
          norm_num
        · exact hM orig horig p hp
        · unfold zeroPix pixInRange
          norm_num
      · rw [List.eq_of_mem_replicate hp]
        unfold zeroPix pixInRange
        norm_num

/-- C8: for a box lying fully inside the image, `prepare_feed` succeeds
(clipping and zero-padding included) and the returned tensor has exactly
the backbone's fixed resolution in the channel-first 3 × resolution ×
resolution layout (224 for MobileNet, 112 otherwise), and on the plain
scaling path every value lies in `[0, 1]` given pixel values in
`[0, 255]`. -/
theorem prepare_feed_tensor_spec (img : Image) (face : Box) (backbone : String)
    (hrect : ∀ r ∈ img, r.length = imgWidthN img)
    (hrange : imgInByteRange img)
    (hbx1 : 0 ≤ face.x1) (hbx2 : face.x1 ≤ face.x2)
    (hbx3 : face.x2 < (imgWidthN img : Int))
    (hby1 : 0 ≤ face.y1) (hby2 : face.y1 ≤ face.y2)
    (hby3 : face.y2 < (imgHeightN img : Int)) :
    ∃ fd, prepare_feed img face backbone = some fd ∧
      fd.data.length = 3 ∧
      (∀ plane ∈ fd.data, plane.length = outSize backbone ∧
        ∀ row ∈ plane, row.length = outSize backbone) ∧
      (backbone ≠ "MobileNet" →
        ∀ plane ∈ fd.data, ∀ row ∈ plane, ∀ v ∈ row, 0 ≤ v ∧ v ≤ 1) := by
  obtain ⟨-, hsx1, hsx2, hcx1, hcx2, hsy1, hsy2, hcy1, hcy2⟩ :=
    cropSquare_center face hbx2 hby2
  have hcb : 0 ≤ (clipBox (imgWidthN img) (imgHeightN img) (cropSquare face)).x1 ∧
      (clipBox (imgWidthN img) (imgHeightN img) (cropSquare face)).x1 <
        (clipBox (imgWidthN img) (imgHeightN img) (cropSquare face)).x2 ∧
      (clipBox (imgWidthN img) (imgHeightN img) (cropSquare face)).x2 ≤
        (imgWidthN img : Int) ∧
      0 ≤ (clipBox (imgWidthN img) (imgHeightN img) (cropSquare face)).y1 ∧
      (clipBox (imgWidthN img) (imgHeightN img) (cropSquare face)).y1 <
        (clipBox (imgWidthN img) (imgHeightN img) (cropSquare face)).y2 ∧
      (clipBox (imgWidthN img) (imgHeightN img) (cropSquare face)).y2 ≤
        (imgHeightN img : Int) := by
    simp only [clipBox]
    omega
  obtain ⟨hc1, hc2, hc3, hc4, hc5, hc6⟩ := hcb
  obtain ⟨hcH, hcW⟩ := crop_dims img
    (clipBox (imgWidthN img) (imgHeightN img) (cropSquare face)).y1
    (clipBox (imgWidthN img) (imgHeightN img) (cropSquare face)).y2
    (clipBox (imgWidthN img) (imgHeightN img) (cropSquare face)).x1
    (clipBox (imgWidthN img) (imgHeightN img) (cropSquare face)).x2
    hrect hc4 hc5 hc6 hc1 hc2 hc3
  have hcR : imgInByteRange (pySlice2 img
      (clipBox (imgWidthN img) (imgHeightN img) (cropSquare face)).y1
      (clipBox (imgWidthN img) (imgHeightN img) (cropSquare face)).y2
      (clipBox (imgWidthN img) (imgHeightN img) (cropSquare face)).x1
      (clipBox (imgWidthN img) (imgHeightN img) (cropSquare face)).x2) :=
    pySlice2_byteRange img _ _ _ _ hrange
  obtain ⟨PRE, hpre, hpreH, hpreW, hpreR⟩ :
      ∃ P, (if padLeft (cropSquare face) > 0 ∨ padTop (cropSquare face) > 0 ∨
          padRight (imgWidthN img) (cropSquare face) > 0 ∨
          padBottom (imgHeightN img) (cropSquare face) > 0 then
        copyMakeBorder (pySlice2 img
            (clipBox (imgWidthN img) (imgHeightN img) (cropSquare face)).y1
            (clipBox (imgWidthN img) (imgHeightN img) (cropSquare face)).y2
            (clipBox (imgWidthN img) (imgHeightN img) (cropSquare face)).x1
            (clipBox (imgWidthN img) (imgHeightN img) (cropSquare face)).x2)
          (padTop (cropSquare face)).toNat
          (padBottom (imgHeightN img) (cropSquare face)).toNat
          (padLeft (cropSquare face)).toNat
          (padRight (imgWidthN img) (cropSquare face)).toNat
      else some (pySlice2 img
          (clipBox (imgWidthN img) (imgHeightN img) (cropSquare face)).y1
          (clipBox (imgWidthN img) (imgHeightN img) (cropSquare face)).y2
          (clipBox (imgWidthN img) (imgHeightN img) (cropSquare face)).x1
          (clipBox (imgWidthN img) (imgHeightN img) (cropSquare face)).x2)) = some P ∧
        imgHeightN P ≠ 0 ∧ imgWidthN P ≠ 0 ∧ imgInByteRange P := by
    by_cases hf : padLeft (cropSquare face) > 0 ∨ padTop (cropSquare face) > 0 ∨
        padRight (imgWidthN img) (cropSquare face) > 0 ∨
        padBottom (imgHeightN img) (cropSquare face) > 0
    · rw [if_pos hf]
      exact copyMakeBorder_spec _ _ _ _ _ hcH hcW hcR
    · rw [if_neg hf]
      exact ⟨_, rfl, hcH, hcW, hcR⟩
  obtain ⟨R, hres⟩ : ∃ R, cv2Resize PRE (outSize backbone) (outSize backbone) = some R := by
    unfold cv2Resize
    rw [if_neg (not_or.mpr ⟨hpreH, hpreW⟩)]
    exact ⟨_, rfl⟩
  have hRshape := resize_shape _ _ _ _ hres
  have hRrange := resize_byteRange _ _ _ _ hres hpreR
  have houtpos := outSize_pos backbone
  have hRw : imgWidthN R = outSize backbone := by
    unfold imgWidthN
    cases hRc : R with
    | nil =>
      rw [hRc] at hRshape
      simp at hRshape
      omega
    | cons r0 rest =>
      simp only [List.headD_cons]
      exact hRshape.2 r0 (by rw [hRc]; exact List.mem_cons_self r0 rest)
  have hdead : ¬(imgHeightN R ≤ 0 ∨ imgWidthN R ≤ 0) := by
    simp only [imgHeightN, hRshape.1, hRw]
    omega
  have htf_shape := mapmap_shape R
    (fun p : Pix => (p.1 / 255, p.2.1 / 255, p.2.2 / 255))
    (outSize backbone) (outSize backbone) ⟨hRshape.1, hRshape.2⟩
  rw [prepare_feed_structure]
  simp only [hpre, hres, if_neg hdead]
  refine ⟨_, rfl, ?_, ?_, ?_⟩
  · simp [transposeCHW]
  · dsimp only
    intro plane hplane
    simp only [transposeCHW, List.mem_cons, List.not_mem_nil, or_false] at hplane
    have htf2_shape : (if backbone = "MobileNet" then
        mobileNetNormalize (R.map (fun r =>
          r.map (fun p => (p.1 / 255, p.2.1 / 255, p.2.2 / 255))))
      else R.map (fun r =>
        r.map (fun p => (p.1 / 255, p.2.1 / 255, p.2.2 / 255)))).length = outSize backbone ∧
        ∀ r ∈ (if backbone = "MobileNet" then
          mobileNetNormalize (R.map (fun r =>
            r.map (fun p => (p.1 / 255, p.2.1 / 255, p.2.2 / 255))))
        else R.map (fun r =>
          r.map (fun p => (p.1 / 255, p.2.1 / 255, p.2.2 / 255)))),
          r.length = outSize backbone := by
      by_cases hb : backbone = "MobileNet"
      · rw [if_pos hb]
        unfold mobileNetNormalize
        exact mapmap_shape _ _ _ _ htf_shape
      · rw [if_neg hb]
        exact htf_shape
    rcases hplane with rfl | rfl | rfl <;> exact mapmap_shape _ _ _ _ htf2_shape
  · intro hnb
    dsimp only
    rw [if_neg hnb]
    intro plane hplane row hrow v hv
    simp only [transposeCHW, List.mem_cons, List.not_mem_nil, or_false] at hplane
    rcases hplane with rfl | rfl | rfl
    · simp only [List.mem_map] at hrow
      obtain ⟨r, hr, rfl⟩ := hrow
      obtain ⟨q, hq, rfl⟩ := hr
      simp only [List.mem_map] at hv
      obtain ⟨p, hp, rfl⟩ := hv
      obtain ⟨b, hb, rfl⟩ := hp
      obtain ⟨a1, a2, a3, a4, a5, a6⟩ := hRrange q hq b hb
      exact div255_range b.1 a1 a2
    · simp only [List.mem_map] at hrow
      obtain ⟨r, hr, rfl⟩ := hrow
      obtain ⟨q, hq, rfl⟩ := hr
      simp only [List.mem_map] at hv
      obtain ⟨p, hp, rfl⟩ := hv
      obtain ⟨b, hb, rfl⟩ := hp
      obtain ⟨a1, a2, a3, a4, a5, a6⟩ := hRrange q hq b hb
      exact div255_range b.2.1 a3 a4
    · simp only [List.mem_map] at hrow
      obtain ⟨r, hr, rfl⟩ := hrow
      obtain ⟨q, hq, rfl⟩ := hr
      simp only [List.mem_map] at hv
      obtain ⟨p, hp, rfl⟩ := hv
      obtain ⟨b, hb, rfl⟩ := hp
      obtain ⟨a1, a2, a3, a4, a5, a6⟩ := hRrange q hq b hb
      exact div255_range b.2.2 a5 a6

/-- Witness for C8 at a concrete image and box fully inside it; the
expanded square of this box crosses the image edge, so the witness
exercises the zero-padding path. -/
theorem prepare_feed_tensor_spec_witness :
    ∃ fd, prepare_feed img6 ⟨0, 0, 4, 4⟩ "PFLD" = some fd ∧
      fd.data.length = 3 ∧
      (∀ plane ∈ fd.data, plane.length = outSize "PFLD" ∧
        ∀ row ∈ plane, row.length = outSize "PFLD") ∧
      ("PFLD" ≠ "MobileNet" →
        ∀ plane ∈ fd.data, ∀ row ∈ plane, ∀ v ∈ row, 0 ≤ v ∧ v ≤ 1) :=
  prepare_feed_tensor_spec img6 ⟨0, 0, 4, 4⟩ "PFLD"
    (by
      intro r hr
      simp only [img6] at hr
      rw [List.eq_of_mem_replicate hr]
      rfl)
    (by
      intro r hr p hp
      simp only [img6] at hr
      rw [List.eq_of_mem_replicate hr] at hp
      rw [List.eq_of_mem_replicate hp]
      norm_num [pixInRange])
    (by decide) (by decide) (by decide) (by decide) (by decide) (by decide)
